import Mathlib

/-!
Shallow embedding of the udp-mangler pipeline (crate udp_mangler):
the packet/configuration data model (src/lib.rs), the delay engine loop
(src/mangle.rs), the listener iteration (src/listen.rs), the forwarder
iteration (src/forward.rs) and the controller surface (src/lib.rs).

Machine floats (f64 timestamps, delays, loss factors) are modelled as ℚ;
the comparisons the code performs on them are exact order comparisons, so
this is faithful for the properties verified here.  Monotonic Instants are
modelled as ℚ seconds.  Byte payloads are lists of naturals.
-/

namespace UdpMangler

/-- `Packet` from src/lib.rs: `send_timestamp : Instant`, `content : Vec<u8>`. -/
structure Packet where
  send_timestamp : ℚ
  content : List Nat
deriving DecidableEq, Repr

/-- `ManglerConfig` from src/lib.rs. -/
structure ManglerConfig where
  buffer_size : Nat
  max_payload_size : Nat
  loss_factor : ℚ
  ping_secs : ℚ
  jitter_secs : ℚ
deriving DecidableEq, Repr

/-- `ManglerConfig::default` from src/lib.rs: buffer 65535, max payload 1472,
loss 0.005, ping 0.050, jitter 0.020. -/
def ManglerConfig.defaultCfg : ManglerConfig :=
  ⟨65535, 1472, 5 / 1000, 50 / 1000, 20 / 1000⟩

/-- `DEFAULT_POLL_INTERVAL` from src/mangle.rs: 100 ms. -/
def defaultPollInterval : ℚ := 1 / 10

/-!
The release queue of the delay engine is `BTreeSet<ByTimestamp>`
(src/mangle.rs line 30).  `ByTimestamp` (src/lib.rs lines 239-282) compares
and equates packets solely by `send_timestamp`.  We model the set as a list
kept sorted by ascending `send_timestamp`, with BTreeSet's semantics:
`insert` of an element equal (by timestamp) to a present one leaves the set
unchanged (the old entry is kept, the new one is discarded);
`last`/`pop_last` act on the greatest element.
-/

/-- `BTreeSet::insert` under the `ByTimestamp` ordering: walk the ascending
list; place the packet before the first strictly greater timestamp; if an
equal timestamp is already present, keep the old entry and drop the new one. -/
def btreeQueueInsert : List Packet → Packet → List Packet
  | [], p => [p]
  | x :: xs, p =>
    if p.send_timestamp < x.send_timestamp then p :: x :: xs
    else if p.send_timestamp = x.send_timestamp then x :: xs
    else x :: btreeQueueInsert xs p

/-- `BTreeSet::pop_last`: split off the last (greatest) element of the
ascending list, returning it together with the remaining elements. -/
def popLast : List Packet → Option (Packet × List Packet)
  | [] => none
  | x :: xs =>
    match popLast xs with
    | some (m, rest) => some (m, x :: rest)
    | none => some (x, [])

/-- `BTreeSet::last` under the `ByTimestamp` ordering. -/
def queueLast (q : List Packet) : Option Packet :=
  (popLast q).map Prod.fst

/-- The drain loop of `mangle_main` (src/mangle.rs lines 36-49):
`while let Some(next_packet) = queue.last() && next_packet.send_timestamp <= now`
pop the LAST (greatest-timestamp) element and send it to the forwarder.
Returns (remaining queue, packets pushed to the forwarder, in push order).
Fuel is the queue length: each pop removes one element. -/
def drainDueAux : Nat → List Packet → ℚ → List Packet × List Packet
  | 0, q, _ => (q, [])
  | Nat.succ fuel, q, now =>
    match popLast q with
    | none => (q, [])
    | some (m, rest) =>
      if m.send_timestamp ≤ now then
        let s := drainDueAux fuel rest now
        (s.1, m :: s.2)
      else (q, [])

def drainDue (q : List Packet) (now : ℚ) : List Packet × List Packet :=
  drainDueAux q.length q now

/-- State of the delay engine between loop iterations (src/mangle.rs lines
30-31): the release queue and the `next_queued` wake deadline. -/
structure MangleState where
  queue : List Packet
  next_queued : ℚ
deriving DecidableEq, Repr

/-- One outcome of `from_listener.recv_timeout` together with the environment
values the iteration then reads: the configuration snapshot `config.load()`
and the two random draws.  `lossDraw` models `rng.random::<f64>()`
(uniform in [0,1)); `jitterDraw` models
`rng.random_range::<f64,_>(0.0..=jitter_secs)` (uniform in [0, jitter_secs]).
Channel closure and the quit flag end the loop and are not events. -/
inductive MangleEvent where
  | timeout
  | packet (p : Packet) (cfg : ManglerConfig) (lossDraw : ℚ) (jitterDraw : ℚ)
deriving DecidableEq, Repr

/-- The delay mutation of src/mangle.rs lines 83-91: add `ping_secs` to the
timestamp when nonzero, then add the jitter draw when `jitter_secs` is
nonzero.  The content is untouched. -/
def applyDelay (cfg : ManglerConfig) (jitterDraw : ℚ) (p : Packet) : Packet :=
  let p1 : Packet :=
    if cfg.ping_secs ≠ 0 then ⟨p.send_timestamp + cfg.ping_secs, p.content⟩ else p
  if cfg.jitter_secs ≠ 0 then ⟨p1.send_timestamp + jitterDraw, p1.content⟩ else p1

/-- One iteration of the `mangle_main` loop body (src/mangle.rs lines 33-103)
at clock value `now`: drain the due suffix, then handle the recv result.
On timeout, reset the wake deadline to `now + DEFAULT_POLL_INTERVAL`.
On a packet: drop it if oversized; drop it if the loss draw hits
(`loss_factor != 0.0 && draw < loss_factor`); otherwise add ping
(if nonzero) and the jitter draw (if jitter nonzero) to its timestamp,
insert it into the release queue, and set the wake deadline from
`queue.last()` (falling back to `now + DEFAULT_POLL_INTERVAL` when empty).
Returns the new state and the packets pushed to the forwarder. -/
def mangleStep (s : MangleState) (now : ℚ) (ev : MangleEvent) :
    MangleState × List Packet :=
  let drained := drainDue s.queue now
  let q1 := drained.1
  let outs := drained.2
  match ev with
  | .timeout => (⟨q1, now + defaultPollInterval⟩, outs)
  | .packet p cfg lossDraw jitterDraw =>
    if p.content.length > cfg.max_payload_size then
      (⟨q1, s.next_queued⟩, outs)
    else if cfg.loss_factor ≠ 0 ∧ lossDraw < cfg.loss_factor then
      (⟨q1, s.next_queued⟩, outs)
    else
      let q2 := btreeQueueInsert q1 (applyDelay cfg jitterDraw p)
      let nq : ℚ :=
        match queueLast q2 with
        | some next => next.send_timestamp
        | none => now + defaultPollInterval
      (⟨q2, nq⟩, outs)

/-- A run of the `mangle_main` loop over a list of (clock value, recv outcome)
pairs, collecting every packet pushed to the forwarder in push order. -/
def mangleRun : MangleState → List (ℚ × MangleEvent) → MangleState × List Packet
  | s, [] => (s, [])
  | s, (now, ev) :: rest =>
    let step := mangleStep s now ev
    let next := mangleRun step.1 rest
    (next.1, step.2 ++ next.2)

/-!  Listener (src/listen.rs).  -/

/-- Outcome of `socket.recv_from(&mut buffer)` as the listener sees it.
`dgram data` is an arriving datagram of raw bytes `data`; the OS writes
`min data.length buffer.len` bytes into the buffer and reports that count.
`wouldBlock` covers `ErrorKind::WouldBlock`/`ErrorKind::TimedOut`;
`fatal` is any other socket error (carried as an abstract code). -/
inductive ListenRecv where
  | dgram (data : List Nat)
  | wouldBlock
  | fatal (code : Nat)
deriving DecidableEq, Repr

/-- What one listener iteration does after the receive attempt. -/
inductive ListenOutcome where
  | loopAgain
  | pushToMangler (p : Packet)
  | publishErrAndExit (code : Nat)
deriving DecidableEq, Repr

/-- One iteration of the `listen_main` loop body (src/listen.rs lines 26-62)
at clock value `now`: the buffer is resized to the snapshot's `buffer_size`;
would-block/timeout loops again; a fatal error is published and ends the
thread; a datagram whose reported size `packet_size` satisfies
`packet_size >= buffer.len()` is silently discarded; otherwise a packet is
built with `send_timestamp = Instant::now()` and
`content = Vec::from(&buffer[..packet_size])` and pushed to the mangler. -/
def listenIteration (cfg : ManglerConfig) (now : ℚ) (r : ListenRecv) :
    ListenOutcome :=
  match r with
  | .wouldBlock => .loopAgain
  | .fatal code => .publishErrAndExit code
  | .dgram data =>
    let buffer_len := cfg.buffer_size
    let packet_size := min data.length buffer_len
    if packet_size ≥ buffer_len then .loopAgain
    else .pushToMangler ⟨now, data.take packet_size⟩

/-!  Forwarder (src/forward.rs).  -/

/-- Outcome of `socket.send(&cur_packet.content)`: `ok n` is a successful
send reporting `n` bytes written; `wouldBlock` covers
`ErrorKind::WouldBlock`/`ErrorKind::TimedOut`; `fatal` any other error. -/
inductive SendResult where
  | ok (num_written : Nat)
  | wouldBlock
  | fatal (code : Nat)
deriving DecidableEq, Repr

/-- Control effect of one forwarder send attempt. -/
inductive ForwardEffect where
  | retrySamePacket
  | packetDone
  | publishErrAndStop (code : Nat)
deriving DecidableEq, Repr

/-- The send part of one `forward_main` iteration (src/forward.rs lines
39-56) with held packet `p`: on `Ok(num_written)` the held slot is cleared
(`packet = None`) whatever `num_written` is; on would-block/timeout the loop
continues with the same held packet; on a fatal error it is published and
the loop breaks, the packet still held.  Returns the control effect and the
held slot afterwards. -/
def forwardSendStep (p : Packet) (r : SendResult) : ForwardEffect × Option Packet :=
  match r with
  | .ok _ => (.packetDone, none)
  | .wouldBlock => (.retrySamePacket, some p)
  | .fatal code => (.publishErrAndStop code, some p)

/-!  Blocking waits of the three workers (for the shutdown-latency claim).  -/

/-- A blocking wait either carries a finite timeout (seconds) or blocks
until a message arrives or the channel closes. -/
inductive WaitBound where
  | bounded (secs : ℚ)
  | unbounded
deriving DecidableEq, Repr

inductive Worker where
  | listener
  | delayEngine
  | forwarder
deriving DecidableEq, Repr

/-- The wait each worker's blocking receive performs, as set up by the code:
the listener's socket has `set_read_timeout(Some(0.1))` (src/lib.rs lines
76-78); the delay engine calls `recv_timeout(next_queued.duration_since(now))`
(src/mangle.rs lines 51-53), `duration_since` saturating at zero; the
forwarder calls plain `from_mangler.recv()` (src/forward.rs line 30), which
has no timeout.  The arguments are the delay engine's `next_queued` and the
current clock value (unused by the other workers). -/
def blockingWaitOf : Worker → ℚ → ℚ → WaitBound
  | .listener, _, _ => .bounded (1 / 10)
  | .delayEngine, next_queued, now => .bounded (max (next_queued - now) 0)
  | .forwarder, _, _ => .unbounded

/-!  Controller (src/lib.rs): configuration publication and completion.  -/

/-- The controller-owned state the claims touch: the `ArcSwap` configuration
cell and the atomic quit flag. -/
structure ControllerState where
  published_config : ManglerConfig
  quit : Bool
deriving DecidableEq, Repr

/-- `Mangler::update_config` (src/lib.rs lines 145-147): store the new value
into the cell, nothing else — no inspection, no validation. -/
def updateConfig (s : ControllerState) (new_config : ManglerConfig) :
    ControllerState :=
  { s with published_config := new_config }

/-- `NewManglerErr` from src/lib.rs lines 48-57 (the io::Error payload is an
abstract code). -/
inductive NewManglerErr where
  | Listener (code : Nat)
  | Forwarder (code : Nat)
deriving DecidableEq, Repr

/-- `Mangler::new` (src/lib.rs lines 62-142) as far as the configuration is
concerned: the listener socket bind and the forwarder socket bind/connect
may fail (modelled as optional error codes, in that order, matching the
early returns); on success the given configuration is wrapped and published
unchanged and the quit flag starts false.  The configuration is never read
or checked on this path. -/
def manglerNew (cfg : ManglerConfig) (listenBindErr : Option Nat)
    (forwardBindErr : Option Nat) : Except NewManglerErr ControllerState :=
  match listenBindErr with
  | some e => .error (.Listener e)
  | none =>
    match forwardBindErr with
    | some e => .error (.Forwarder e)
    | none => .ok ⟨cfg, false⟩

/-- The configuration invariant stated by the documentation (validated only
by the external CLI): `loss_factor ∈ [0,1]`, `buffer_size > 0`,
`max_payload_size > 0`. -/
def configInvariantOk (c : ManglerConfig) : Prop :=
  0 ≤ c.loss_factor ∧ c.loss_factor ≤ 1 ∧ 0 < c.buffer_size ∧ 0 < c.max_payload_size

instance (c : ManglerConfig) : Decidable (configInvariantOk c) := by
  unfold configInvariantOk
  infer_instance

/-!  `Mangler::wait_until_complete` (src/lib.rs lines 156-170) over the
mpsc error channel.  -/

/-- What `Receiver::recv` returns on the error channel given the queued
(sent, not yet received) messages and whether every sender clone has been
dropped: the first queued message if any; `disconnected` (`RecvError`) if
none is queued and the channel is closed; otherwise it blocks. -/
inductive RecvOutcome where
  | msg (code : Nat)
  | disconnected
  | blocks
deriving DecidableEq, Repr

def mpscRecv : List Nat → Bool → RecvOutcome
  | e :: _, _ => .msg e
  | [], true => .disconnected
  | [], false => .blocks

/-- `Mangler::wait_until_complete`: `recv()` on the error channel;
`Ok(err)` becomes `Err(err)` for the caller, `Err(RecvError)` (channel
closed with nothing queued) becomes `Ok(())`.  `none` models the call still
blocking (channel open, nothing sent). -/
def waitUntilComplete (sentErrs : List Nat) (closed : Bool) :
    Option (Except Nat Unit) :=
  match mpscRecv sentErrs closed with
  | .msg e => some (.error e)
  | .disconnected => some (.ok ())
  | .blocks => none

/-!  General lemmas about the release-queue operations and the mangler loop. -/

theorem popLast_eq {q : List Packet} {m : Packet} {rest : List Packet}
    (h : popLast q = some (m, rest)) : q = rest ++ [m] := by
  induction q generalizing m rest with
  | nil => simp [popLast] at h
  | cons x xs ih =>
    simp only [popLast] at h
    cases hx : popLast xs with
    | none =>
      rw [hx] at h
      simp only [Option.some.injEq, Prod.mk.injEq] at h
      obtain ⟨hm, hr⟩ := h
      subst hm
      subst hr
      cases xs with
      | nil => simp
      | cons y ys =>
        simp only [popLast] at hx
        cases hys : popLast ys with
        | none => rw [hys] at hx; simp at hx
        | some pr2 => rw [hys] at hx; simp at hx
    | some pr =>
      obtain ⟨m0, rest0⟩ := pr
      rw [hx] at h
      simp only [Option.some.injEq, Prod.mk.injEq] at h
      obtain ⟨hm, hr⟩ := h
      subst hm
      subst hr
      simp [ih hx]

theorem drainDueAux_mem {o : Packet} :
    ∀ (fuel : Nat) (q : List Packet) (now : ℚ),
      o ∈ (drainDueAux fuel q now).1 ∨ o ∈ (drainDueAux fuel q now).2 → o ∈ q := by
  intro fuel
  induction fuel with
  | zero =>
    intro q now h
    simpa [drainDueAux] using h
  | succ n ih =>
    intro q now h
    simp only [drainDueAux] at h
    cases hq : popLast q with
    | none =>
      rw [hq] at h
      simpa using h
    | some pr =>
      obtain ⟨m, rest⟩ := pr
      rw [hq] at h
      dsimp only at h
      have hsplit : q = rest ++ [m] := popLast_eq hq
      by_cases hle : m.send_timestamp ≤ now
      · rw [if_pos hle] at h
        simp only [List.mem_cons] at h
        rcases h with h | h | h
        · exact hsplit ▸ List.mem_append_left _ (ih rest now (Or.inl h))
        · subst h
          exact hsplit ▸ List.mem_append_right _ (List.mem_singleton_self o)
        · exact hsplit ▸ List.mem_append_left _ (ih rest now (Or.inr h))
      · rw [if_neg hle] at h
        simpa using h

theorem drainDue_mem {o : Packet} {q : List Packet} {now : ℚ}
    (h : o ∈ (drainDue q now).1 ∨ o ∈ (drainDue q now).2) : o ∈ q :=
  drainDueAux_mem q.length q now h

theorem btreeQueueInsert_mem {q : List Packet} {p o : Packet}
    (h : o ∈ btreeQueueInsert q p) : o = p ∨ o ∈ q := by
  induction q with
  | nil =>
    simp only [btreeQueueInsert, List.mem_singleton] at h
    exact Or.inl h
  | cons x xs ih =>
    simp only [btreeQueueInsert] at h
    by_cases h1 : p.send_timestamp < x.send_timestamp
    · rw [if_pos h1] at h
      rcases List.mem_cons.mp h with h | h
      · exact Or.inl h
      · exact Or.inr h
    · rw [if_neg h1] at h
      by_cases h2 : p.send_timestamp = x.send_timestamp
      · rw [if_pos h2] at h
        exact Or.inr h
      · rw [if_neg h2] at h
        rcases List.mem_cons.mp h with h | h
        · exact Or.inr (h ▸ List.mem_cons_self x xs)
        · rcases ih h with h | h
          · exact Or.inl h
          · exact Or.inr (List.mem_cons_of_mem x h)

theorem applyDelay_content (cfg : ManglerConfig) (jd : ℚ) (p : Packet) :
    (applyDelay cfg jd p).content = p.content := by
  simp only [applyDelay]
  by_cases h1 : cfg.ping_secs ≠ 0 <;> by_cases h2 : cfg.jitter_secs ≠ 0 <;>
    simp [h1, h2]

theorem mangleStep_timeout (s : MangleState) (now : ℚ) :
    mangleStep s now .timeout =
      (⟨(drainDue s.queue now).1, now + defaultPollInterval⟩,
       (drainDue s.queue now).2) := rfl

theorem mangleStep_packet_oversize (s : MangleState) (now : ℚ) (p : Packet)
    (cfg : ManglerConfig) (ld jd : ℚ)
    (h : p.content.length > cfg.max_payload_size) :
    mangleStep s now (.packet p cfg ld jd) =
      (⟨(drainDue s.queue now).1, s.next_queued⟩, (drainDue s.queue now).2) := by
  simp only [mangleStep]
  rw [if_pos h]

theorem mangleStep_packet_lost (s : MangleState) (now : ℚ) (p : Packet)
    (cfg : ManglerConfig) (ld jd : ℚ)
    (h1 : ¬ p.content.length > cfg.max_payload_size)
    (h2 : cfg.loss_factor ≠ 0 ∧ ld < cfg.loss_factor) :
    mangleStep s now (.packet p cfg ld jd) =
      (⟨(drainDue s.queue now).1, s.next_queued⟩, (drainDue s.queue now).2) := by
  simp only [mangleStep]
  rw [if_neg h1, if_pos h2]

theorem mangleStep_packet_kept (s : MangleState) (now : ℚ) (p : Packet)
    (cfg : ManglerConfig) (ld jd : ℚ)
    (h1 : ¬ p.content.length > cfg.max_payload_size)
    (h2 : ¬ (cfg.loss_factor ≠ 0 ∧ ld < cfg.loss_factor)) :
    mangleStep s now (.packet p cfg ld jd) =
      (⟨btreeQueueInsert (drainDue s.queue now).1 (applyDelay cfg jd p),
        match queueLast (btreeQueueInsert (drainDue s.queue now).1 (applyDelay cfg jd p)) with
        | some next => next.send_timestamp
        | none => now + defaultPollInterval⟩,
       (drainDue s.queue now).2) := by
  simp only [mangleStep]
  rw [if_neg h1, if_neg h2]

theorem mangleStep_out_mem {s : MangleState} {now : ℚ} {ev : MangleEvent}
    {o : Packet} (h : o ∈ (mangleStep s now ev).2) : o ∈ s.queue := by
  cases ev with
  | timeout =>
    rw [mangleStep_timeout] at h
    exact drainDue_mem (Or.inr h)
  | packet p cfg ld jd =>
    by_cases h1 : p.content.length > cfg.max_payload_size
    · rw [mangleStep_packet_oversize s now p cfg ld jd h1] at h
      exact drainDue_mem (Or.inr h)
    · by_cases h2 : cfg.loss_factor ≠ 0 ∧ ld < cfg.loss_factor
      · rw [mangleStep_packet_lost s now p cfg ld jd h1 h2] at h
        exact drainDue_mem (Or.inr h)
      · rw [mangleStep_packet_kept s now p cfg ld jd h1 h2] at h
        exact drainDue_mem (Or.inr h)

theorem mangleStep_queue_mem {s : MangleState} {now : ℚ} {ev : MangleEvent}
    {o : Packet} (h : o ∈ (mangleStep s now ev).1.queue) :
    o ∈ s.queue ∨ ∃ p cfg ld jd, ev = MangleEvent.packet p cfg ld jd ∧
      p.content.length ≤ cfg.max_payload_size ∧ o.content = p.content := by
  cases ev with
  | timeout =>
    rw [mangleStep_timeout] at h
    exact Or.inl (drainDue_mem (Or.inl h))
  | packet p cfg ld jd =>
    by_cases h1 : p.content.length > cfg.max_payload_size
    · rw [mangleStep_packet_oversize s now p cfg ld jd h1] at h
      exact Or.inl (drainDue_mem (Or.inl h))
    · by_cases h2 : cfg.loss_factor ≠ 0 ∧ ld < cfg.loss_factor
      · rw [mangleStep_packet_lost s now p cfg ld jd h1 h2] at h
        exact Or.inl (drainDue_mem (Or.inl h))
      · rw [mangleStep_packet_kept s now p cfg ld jd h1 h2] at h
        rcases btreeQueueInsert_mem h with h | h
        · refine Or.inr ⟨p, cfg, ld, jd, rfl, Nat.le_of_not_lt h1, ?_⟩
          rw [h]
          exact applyDelay_content cfg jd p
        · exact Or.inl (drainDue_mem (Or.inl h))

theorem mangleRun_origin :
    ∀ (trace : List (ℚ × MangleEvent)) (s : MangleState) (o : Packet),
      o ∈ (mangleRun s trace).2 ∨ o ∈ (mangleRun s trace).1.queue →
      o ∈ s.queue ∨ ∃ now p cfg ld jd,
        (now, MangleEvent.packet p cfg ld jd) ∈ trace ∧
        p.content.length ≤ cfg.max_payload_size ∧ o.content = p.content := by
  intro trace
  induction trace with
  | nil =>
    intro s o h
    simp only [mangleRun] at h
    rcases h with h | h
    · simp at h
    · exact Or.inl h
  | cons head rest ih =>
    obtain ⟨now, ev⟩ := head
    intro s o h
    simp only [mangleRun] at h
    have from_step : o ∈ (mangleStep s now ev).1.queue →
        o ∈ s.queue ∨ ∃ n2 p cfg ld jd,
          (n2, MangleEvent.packet p cfg ld jd) ∈ (now, ev) :: rest ∧
          p.content.length ≤ cfg.max_payload_size ∧ o.content = p.content := by
      intro hq
      rcases mangleStep_queue_mem hq with hq | ⟨p, cfg, ld, jd, hev, hsz, hc⟩
      · exact Or.inl hq
      · subst hev
        exact Or.inr ⟨now, p, cfg, ld, jd, List.mem_cons_self _ _, hsz, hc⟩
    rcases h with h | h
    · rcases List.mem_append.mp h with h | h
      · exact Or.inl (mangleStep_out_mem h)
      · rcases ih (mangleStep s now ev).1 o (Or.inl h) with h | ⟨n2, p, cfg, ld, jd, hmem, hsz, hc⟩
        · exact from_step h
        · exact Or.inr ⟨n2, p, cfg, ld, jd, List.mem_cons_of_mem _ hmem, hsz, hc⟩
    · rcases ih (mangleStep s now ev).1 o (Or.inr h) with h | ⟨n2, p, cfg, ld, jd, hmem, hsz, hc⟩
      · exact from_step h
      · exact Or.inr ⟨n2, p, cfg, ld, jd, List.mem_cons_of_mem _ hmem, hsz, hc⟩

/-!  Claim theorems.  -/

/-- C1: the claim says packets are pushed to the forwarder in non-decreasing
release-time order.  The drain loop of src/mangle.rs (lines 36-49) pops the
release queue with `pop_last`, the GREATEST timestamp first: on a concrete
run that queues packets with release times 10 and 11 and then drains, the
engine pushes the release-time-11 packet first and the release-time-10
packet second, although 10 < 11 — the push order is descending, refuting
the claim. -/
theorem release_order_descending_on_concrete_run :
    (mangleRun ⟨[], 0⟩
        [(0, .packet ⟨0, [1]⟩ ⟨65535, 1472, 0, 10, 0⟩ 0 0),
         (1, .packet ⟨1, [2]⟩ ⟨65535, 1472, 0, 10, 0⟩ 0 0),
         (20, .timeout)]).2 =
      [⟨11, [2]⟩, ⟨10, [1]⟩] ∧ (10 : ℚ) < 11 := by
  constructor
  · norm_num [mangleRun, mangleStep, applyDelay, drainDue, drainDueAux,
      popLast, queueLast, btreeQueueInsert, defaultPollInterval]
  · norm_num

/-- C2: the claim says two queued packets with equal release_time are both
retained and both released.  The release queue is `BTreeSet<ByTimestamp>`
and `ByTimestamp` equality compares only `send_timestamp` (src/lib.rs lines
263-269), so `insert` of a second packet with an equal timestamp leaves the
set unchanged and the new packet vanishes: inserting content [2] at
timestamp 10 next to the queued content [1] at timestamp 10 keeps only
[1], and a full run that mangles two packets to the same release time
forwards only the first. -/
theorem equal_timestamp_coalesced_on_concrete_run :
    btreeQueueInsert [⟨10, [1]⟩] ⟨10, [2]⟩ = [⟨10, [1]⟩] ∧
    (mangleRun ⟨[], 0⟩
        [(0, .packet ⟨0, [1]⟩ ⟨65535, 1472, 0, 10, 0⟩ 0 0),
         (1, .packet ⟨0, [2]⟩ ⟨65535, 1472, 0, 10, 0⟩ 0 0),
         (20, .timeout)]).2 =
      [⟨10, [1]⟩] ∧
    (mangleRun ⟨[], 0⟩
        [(0, .packet ⟨0, [1]⟩ ⟨65535, 1472, 0, 10, 0⟩ 0 0),
         (1, .packet ⟨0, [2]⟩ ⟨65535, 1472, 0, 10, 0⟩ 0 0),
         (20, .timeout)]).1.queue = [] := by
  refine ⟨?_, ?_, ?_⟩ <;>
    norm_num [mangleRun, mangleStep, applyDelay, drainDue, drainDueAux,
      popLast, queueLast, btreeQueueInsert, defaultPollInterval]

/-- C3: the claim says an accepted packet timestamped T is handed over no
later than T + ping_secs + jitter_secs.  Because the drain loop only pops
while the GREATEST queued timestamp is due and sleeps until `next_queued`
(set from `queue.last()`, the maximum), a due packet is held while any
later-scheduled packet is pending: a packet received at T = 0 with
ping = 10, jitter = 0 (bound 10) is still unreleased at clock 500 because
a packet with release time 1001 sits in the queue — nothing has been pushed
and both packets are still queued, refuting the bound. -/
theorem due_packet_held_past_bound_on_concrete_run :
    (mangleRun ⟨[], 0⟩
        [(0, .packet ⟨0, [1]⟩ ⟨65535, 1472, 0, 10, 0⟩ 0 0),
         (1, .packet ⟨1, [2]⟩ ⟨65535, 1472, 0, 1000, 0⟩ 0 0),
         (500, .timeout)]).2 = [] ∧
    (mangleRun ⟨[], 0⟩
        [(0, .packet ⟨0, [1]⟩ ⟨65535, 1472, 0, 10, 0⟩ 0 0),
         (1, .packet ⟨1, [2]⟩ ⟨65535, 1472, 0, 1000, 0⟩ 0 0),
         (500, .timeout)]).1.queue = [⟨10, [1]⟩, ⟨1001, [2]⟩] ∧
    ((0 : ℚ) + 10 + 0 < 500) := by
  refine ⟨?_, ?_, ?_⟩ <;>
    norm_num [mangleRun, mangleStep, applyDelay, drainDue, drainDueAux,
      popLast, queueLast, btreeQueueInsert, defaultPollInterval]

/-- C4 (counterexample): the claim says each of the three workers' blocking
waits carries a finite bound.  The forwarder's input-queue wait is a plain
`from_mangler.recv()` (src/forward.rs line 30) with no timeout: there is a
worker none of whose waits is bounded. -/
theorem forwarder_wait_unbounded_cex :
    ∃ w : Worker, ∀ (nq now b : ℚ), blockingWaitOf w nq now ≠ WaitBound.bounded b :=
  ⟨.forwarder, fun _ _ _ h => by simp [blockingWaitOf] at h⟩

/-- C4 (amended): the Listener's socket receive is bounded by the 0.1 s read
timeout set at construction and the Delay Engine's input-queue wait is
bounded by the computed (saturating) time until `next_queued`, but the
Forwarder's input-queue wait is unbounded — it relies on queue closure, not
on a bounded wait, to observe shutdown when no traffic arrives. -/
theorem worker_wait_bounds :
    (∀ nq now : ℚ, blockingWaitOf .listener nq now = WaitBound.bounded (1 / 10)) ∧
    (∀ nq now : ℚ,
      blockingWaitOf .delayEngine nq now = WaitBound.bounded (max (nq - now) 0)) ∧
    (∀ nq now : ℚ, blockingWaitOf .forwarder nq now = WaitBound.unbounded) :=
  ⟨fun _ _ => rfl, fun _ _ => rfl, fun _ _ => rfl⟩

/-- C5: a packet whose content length strictly exceeds the
`max_payload_size` of the snapshot read when the delay engine processes it
is discarded: its iteration leaves the release queue exactly as the drain
left it and pushes nothing beyond the drained packets (first part), and on
any run from an empty queue every packet ever pushed to the forwarder
carries the content of some input packet that PASSED the size check
(second part) — so an oversized packet is never pushed. -/
theorem oversized_packet_never_forwarded :
    (∀ (s : MangleState) (now : ℚ) (p : Packet) (cfg : ManglerConfig) (ld jd : ℚ),
      p.content.length > cfg.max_payload_size →
      mangleStep s now (.packet p cfg ld jd) =
        (⟨(drainDue s.queue now).1, s.next_queued⟩, (drainDue s.queue now).2)) ∧
    (∀ (trace : List (ℚ × MangleEvent)) (t0 : ℚ) (o : Packet),
      o ∈ (mangleRun ⟨[], t0⟩ trace).2 →
      ∃ now p cfg ld jd, (now, MangleEvent.packet p cfg ld jd) ∈ trace ∧
        p.content.length ≤ cfg.max_payload_size ∧ o.content = p.content) := by
  constructor
  · intro s now p cfg ld jd h
    exact mangleStep_packet_oversize s now p cfg ld jd h
  · intro trace t0 o h
    rcases mangleRun_origin trace ⟨[], t0⟩ o (Or.inl h) with h | h
    · simp at h
    · exact h

/-- C5 witness: a 2-byte packet against a snapshot with max_payload_size 1
is dropped: the iteration returns the drained (empty) queue and pushes
nothing. -/
theorem oversized_packet_never_forwarded_case :
    mangleStep ⟨[], 0⟩ 0 (.packet ⟨0, [1, 2]⟩ ⟨10, 1, 0, 0, 0⟩ 0 0) =
      (⟨[], 0⟩, []) :=
  oversized_packet_never_forwarded.1 ⟨[], 0⟩ 0 ⟨0, [1, 2]⟩ ⟨10, 1, 0, 0, 0⟩ 0 0
    (by decide)

/-- C6: with `loss_factor = 1.0` every size-accepted packet is discarded by
the loss test `loss_factor != 0.0 && draw < loss_factor` because every
uniform draw in [0,1) is below 1 (first part); hence on any run from an
empty queue in which every arriving packet is processed under a snapshot
with `loss_factor = 1`, the queue stays empty and nothing is ever pushed to
the forwarder (second part). -/
theorem loss_factor_one_blocks_all :
    (∀ (s : MangleState) (now : ℚ) (p : Packet) (cfg : ManglerConfig) (ld jd : ℚ),
      cfg.loss_factor = 1 → 0 ≤ ld → ld < 1 →
      p.content.length ≤ cfg.max_payload_size →
      mangleStep s now (.packet p cfg ld jd) =
        (⟨(drainDue s.queue now).1, s.next_queued⟩, (drainDue s.queue now).2)) ∧
    (∀ (trace : List (ℚ × MangleEvent)) (t0 : ℚ),
      (∀ now p cfg ld jd, (now, MangleEvent.packet p cfg ld jd) ∈ trace →
        cfg.loss_factor = 1 ∧ 0 ≤ ld ∧ ld < 1) →
      (mangleRun ⟨[], t0⟩ trace).1.queue = [] ∧
      (mangleRun ⟨[], t0⟩ trace).2 = []) := by
  have hdrop : ∀ (s : MangleState) (now : ℚ) (p : Packet) (cfg : ManglerConfig)
      (ld jd : ℚ), cfg.loss_factor = 1 → ld < 1 →
      p.content.length ≤ cfg.max_payload_size →
      mangleStep s now (.packet p cfg ld jd) =
        (⟨(drainDue s.queue now).1, s.next_queued⟩, (drainDue s.queue now).2) := by
    intro s now p cfg ld jd hcfg hld hsz
    refine mangleStep_packet_lost s now p cfg ld jd (Nat.not_lt.mpr hsz) ?_
    rw [hcfg]
    exact ⟨one_ne_zero, hld⟩
  constructor
  · intro s now p cfg ld jd hcfg _ hld hsz
    exact hdrop s now p cfg ld jd hcfg hld hsz
  · intro trace
    induction trace with
    | nil =>
      intro t0 _
      exact ⟨rfl, rfl⟩
    | cons head rest ih =>
      obtain ⟨now, ev⟩ := head
      intro t0 hh
      have hrest : ∀ n2 p cfg ld jd, (n2, MangleEvent.packet p cfg ld jd) ∈ rest →
          cfg.loss_factor = 1 ∧ 0 ≤ ld ∧ ld < 1 :=
        fun n2 p cfg ld jd hm => hh n2 p cfg ld jd (List.mem_cons_of_mem _ hm)
      cases ev with
      | timeout =>
        have hstep : mangleStep ⟨[], t0⟩ now .timeout =
            (⟨[], now + defaultPollInterval⟩, []) := rfl
        simp only [mangleRun, hstep]
        exact ⟨(ih (now + defaultPollInterval) hrest).1,
          by simpa using (ih (now + defaultPollInterval) hrest).2⟩
      | packet p cfg ld jd =>
        obtain ⟨hcfg, hld0, hld1⟩ := hh now p cfg ld jd (List.mem_cons_self _ _)
        have hstep : mangleStep ⟨[], t0⟩ now (.packet p cfg ld jd) =
            (⟨[], t0⟩, []) := by
          by_cases h1 : p.content.length > cfg.max_payload_size
          · exact mangleStep_packet_oversize ⟨[], t0⟩ now p cfg ld jd h1
          · exact hdrop ⟨[], t0⟩ now p cfg ld jd hcfg hld1 (Nat.le_of_not_lt h1)
        simp only [mangleRun, hstep]
        exact ⟨(ih t0 hrest).1, by simpa using (ih t0 hrest).2⟩

/-- C6 witness: one packet processed under loss_factor 1 with draw 1/2:
the run pushes nothing and the queue ends empty. -/
theorem loss_factor_one_blocks_all_case :
    (mangleRun ⟨[], 0⟩
        [(0, .packet ⟨0, [7]⟩ ⟨65535, 1472, 1, 0, 0⟩ (1 / 2) 0)]).2 = [] := by
  refine (loss_factor_one_blocks_all.2 _ 0 ?_).2
  intro now p cfg ld jd hm
  simp only [List.mem_singleton, Prod.mk.injEq, MangleEvent.packet.injEq] at hm
  obtain ⟨-, -, hcfg, hld, -⟩ := hm
  subst hcfg
  subst hld
  norm_num

/-- C7: on a received datagram whose size reaches the receive buffer's
capacity (the snapshot's buffer_size) the listener iteration silently
loops (no push, no error); on a smaller datagram it pushes a packet whose
release time is the receive instant and whose content is exactly the
received bytes. -/
theorem listener_size_check_and_copy :
    ∀ (cfg : ManglerConfig) (now : ℚ) (data : List Nat),
      (data.length ≥ cfg.buffer_size →
        listenIteration cfg now (.dgram data) = .loopAgain) ∧
      (data.length < cfg.buffer_size →
        listenIteration cfg now (.dgram data) = .pushToMangler ⟨now, data⟩) := by
  intro cfg now data
  constructor
  · intro h
    simp only [listenIteration]
    rw [Nat.min_eq_right h, if_pos (Nat.le_refl _)]
  · intro h
    simp only [listenIteration]
    rw [Nat.min_eq_left (Nat.le_of_lt h), if_neg (Nat.not_le.mpr h),
      List.take_length]

/-- C7 witness: with buffer capacity 3, a 3-byte datagram is dropped and a
2-byte datagram is pushed as a packet timestamped now with exactly its
bytes. -/
theorem listener_size_check_and_copy_case :
    listenIteration ⟨3, 1472, 0, 0, 0⟩ 5 (.dgram [1, 2, 3]) = .loopAgain ∧
    listenIteration ⟨3, 1472, 0, 0, 0⟩ 5 (.dgram [1, 2]) =
      .pushToMangler ⟨5, [1, 2]⟩ :=
  ⟨(listener_size_check_and_copy ⟨3, 1472, 0, 0, 0⟩ 5 [1, 2, 3]).1 (by decide),
   (listener_size_check_and_copy ⟨3, 1472, 0, 0, 0⟩ 5 [1, 2]).2 (by decide)⟩

/-- C8: `wait_until_complete` surfaces the first error published on the
error channel when one was sent, and returns Ok exactly when the channel's
sender side is fully closed with no error ever sent. -/
theorem wait_until_complete_first_error_or_clean :
    ∀ (sentErrs : List Nat) (closed : Bool),
      (∀ e, sentErrs.head? = some e →
        waitUntilComplete sentErrs closed = some (.error e)) ∧
      (waitUntilComplete sentErrs closed = some (.ok ()) ↔
        sentErrs = [] ∧ closed = true) := by
  intro sentErrs closed
  cases sentErrs with
  | nil =>
    cases closed with
    | false =>
      exact ⟨fun e he => by simp at he, by simp [waitUntilComplete, mpscRecv]⟩
    | true =>
      exact ⟨fun e he => by simp at he, by simp [waitUntilComplete, mpscRecv]⟩
  | cons e es =>
    constructor
    · intro e2 he
      simp only [List.head?_cons, Option.some.injEq] at he
      subst he
      rfl
    · simp [waitUntilComplete, mpscRecv]

/-- C8 witness: with errors [3, 5] queued the first error 3 is returned as
Err; with nothing queued and the channel closed the result is Ok. -/
theorem wait_until_complete_first_error_or_clean_case :
    waitUntilComplete [3, 5] false = some (.error 3) ∧
    waitUntilComplete [] true = some (.ok ()) :=
  ⟨(wait_until_complete_first_error_or_clean [3, 5] false).1 3 rfl,
   (wait_until_complete_first_error_or_clean [] true).2.mpr ⟨rfl, rfl⟩⟩

/-- C9: a configuration violating the documented invariants (loss_factor
outside [0,1], buffer_size 0, or max_payload_size 0) is published unchanged
by `update_config` and accepted by `Mangler::new` (which fails only on
socket errors): the core never validates it. -/
theorem config_never_validated :
    ∀ (s : ControllerState) (cfg : ManglerConfig),
      ¬ configInvariantOk cfg →
      (updateConfig s cfg).published_config = cfg ∧
      manglerNew cfg none none = .ok ⟨cfg, false⟩ := by
  intro s cfg _
  exact ⟨rfl, rfl⟩

/-- C9 witness: the invalid configuration with loss_factor 2 and zero
buffer and payload sizes is published unchanged and accepted. -/
theorem config_never_validated_case :
    (updateConfig ⟨ManglerConfig.defaultCfg, false⟩
        ⟨0, 0, 2, 0, 0⟩).published_config = ⟨0, 0, 2, 0, 0⟩ ∧
    manglerNew ⟨0, 0, 2, 0, 0⟩ none none = .ok ⟨⟨0, 0, 2, 0, 0⟩, false⟩ :=
  config_never_validated ⟨ManglerConfig.defaultCfg, false⟩ ⟨0, 0, 2, 0, 0⟩
    (fun h => by
      obtain ⟨-, -, h3, -⟩ := h
      exact absurd h3 (by norm_num))

/-- C10: a send that returns Ok(n) clears the held packet whatever n is —
in particular a partial write (n below the content length) is not retried
and the remaining bytes are dropped. -/
theorem send_success_clears_packet :
    ∀ (p : Packet) (n : Nat), n < p.content.length →
      forwardSendStep p (.ok n) = (.packetDone, none) := by
  intro p n _
  rfl

/-- C10 witness: a 3-byte packet whose send reports 1 byte written is still
treated as done and dropped. -/
theorem send_success_clears_packet_case :
    forwardSendStep ⟨0, [1, 2, 3]⟩ (.ok 1) = (.packetDone, none) :=
  send_success_clears_packet ⟨0, [1, 2, 3]⟩ 1 (by decide)

end UdpMangler
